import Mathlib

/-!
Shallow embedding of the option-chain data pipeline of `app.py`
(data normalization, derived fields, strike filtering/sorting,
ATM windowing, pagination, and the per-key TTL freshness cache).

Python floats are modelled by `ℚ`; JSON-ish row values by `Val`;
a row (a Python dict) by an association list from field names to values.
Upstream network fetches are abstracted as explicit parameters.
-/

namespace OptionsApp

/-- A loosely-typed row value, as found in the JSON payloads `app.py`
manipulates: a string, a number (Python int/float, modelled by `ℚ`),
a boolean, or null/missing. -/
inductive Val where
  | str (s : String)
  | num (q : ℚ)
  | bool (b : Bool)
  | null
  deriving DecidableEq, Repr

/-- A canonical row: a Python dict, modelled as an association list.
Lookups take the first binding of a key. -/
def Row := List (String × Val)

instance : DecidableEq Row := by unfold Row; infer_instance

/-- `row.get(key)` of Python: the value bound to `key`, or `None`
(`Val.null`) when the key is absent. -/
def pyGet (row : Row) (key : String) : Val :=
  (List.lookup key row).getD Val.null

/-- `row[key] = v` of Python: bind `key` to `v` (the new binding shadows
any previous one). -/
def rowSet (row : Row) (key : String) (v : Val) : Row :=
  (key, v) :: row

/-- Decimal digit test. -/
def isDigit (c : Char) : Bool :=
  '0' ≤ c && c ≤ '9'

/-- Value of a digit string (most significant first). -/
def digitsToNat (cs : List Char) : ℕ :=
  cs.foldl (fun acc c => 10 * acc + (c.toNat - 48)) 0

/-- A non-empty all-digit character list, as a number. -/
def parseAllDigits (cs : List Char) : Option ℕ :=
  if cs ≠ [] && cs.all isDigit then some (digitsToNat cs) else none

/-- Exponent part of a decimal literal: optional sign, then digits. -/
def parseExpDigits (cs : List Char) : Option ℤ :=
  match cs with
  | '+' :: rest => (parseAllDigits rest).map (fun n => (n : ℤ))
  | '-' :: rest => (parseAllDigits rest).map (fun n => -(n : ℤ))
  | rest => (parseAllDigits rest).map (fun n => (n : ℤ))

/-- Scale a mantissa by a signed power of ten. -/
def applyExp (m : ℚ) (e : ℤ) : ℚ :=
  if 0 ≤ e then m * 10 ^ e.toNat else m / 10 ^ (-e).toNat

/-- Mantissa value from integer-part and fraction-part digits. -/
def mantissa (ip fp : List Char) : ℚ :=
  (digitsToNat (ip ++ fp) : ℚ) / 10 ^ fp.length

/-- Unsigned decimal literal: `digits [. digits] [(e|E) exp]` or
`. digits [(e|E) exp]`, modelling the decimal forms accepted by
Python's `float()`. -/
def parseUnsignedDecimal (cs : List Char) : Option ℚ :=
  let s1 := cs.span isDigit
  let ip := s1.1
  match s1.2 with
  | [] => if ip.isEmpty then none else some (digitsToNat ip : ℚ)
  | '.' :: rest2 =>
    let s2 := rest2.span isDigit
    let fp := s2.1
    if ip.isEmpty && fp.isEmpty then none
    else
      match s2.2 with
      | [] => some (mantissa ip fp)
      | 'e' :: rest4 => (parseExpDigits rest4).map (applyExp (mantissa ip fp))
      | 'E' :: rest4 => (parseExpDigits rest4).map (applyExp (mantissa ip fp))
      | _ => none
  | 'e' :: rest4 =>
    if ip.isEmpty then none
    else (parseExpDigits rest4).map (applyExp (digitsToNat ip : ℚ))
  | 'E' :: rest4 =>
    if ip.isEmpty then none
    else (parseExpDigits rest4).map (applyExp (digitsToNat ip : ℚ))
  | _ => none

/-- Signed decimal literal, the numeric-string grammar of Python's
`float()` (finite decimal forms). -/
def parseDecimalChars (cs : List Char) : Option ℚ :=
  match cs with
  | '+' :: rest => parseUnsignedDecimal rest
  | '-' :: rest => (parseUnsignedDecimal rest).map Neg.neg
  | rest => parseUnsignedDecimal rest

/-- `to_float` of `app.py`: `None` for null; numbers pass through;
strings are trimmed, rejected when empty, stripped of commas, and
parsed as a float; Python booleans coerce as 1/0 (they are ints). -/
def to_float : Val → Option ℚ
  | .null => none
  | .bool b => some (if b then 1 else 0)
  | .num q => some q
  | .str s =>
    let cleaned := s.trim
    if cleaned = "" then none
    else parseDecimalChars (cleaned.toList.filter (fun c => c ≠ ','))

/-- The bare Python builtin `float(value)` (no comma stripping), with
coercion failures (`TypeError`/`ValueError`) as `none`; used where
`app.py` calls `float` directly inside a try/except. -/
def pyFloat : Val → Option ℚ
  | .null => none
  | .bool b => some (if b then 1 else 0)
  | .num q => some q
  | .str s => parseDecimalChars s.trim.toList

/-- Python's `round` to an integer: round half to even. -/
def pyRound (q : ℚ) : ℤ :=
  let f := ⌊q⌋
  let frac := q - f
  if frac < 1 / 2 then f
  else if 1 / 2 < frac then f + 1
  else if f % 2 = 0 then f else f + 1

/-- Python's `round(value, 2)`: round to 2 decimal places,
half to even. -/
def round2 (q : ℚ) : ℚ :=
  (pyRound (q * 100) : ℚ) / 100

/-- `format_number` of `app.py` at its only used precision (2):
absent values render as the empty string, present values are rounded
to 2 decimals. -/
def format_number : Option ℚ → Val
  | none => .str ""
  | some v => .num (round2 v)

/-- The four legacy previous-close alias keys, in lookup order. -/
def prevCloseAliases (pfx : String) : List String :=
  [pfx ++ "_PrevClose", pfx ++ "_PreviousClose",
   pfx ++ "_PrevClosePrice", pfx ++ "_PreviousClosePrice"]

/-- First key in `keys` whose value in `row` numerically coerces. -/
def firstFloat (row : Row) : List String → Option ℚ
  | [] => none
  | k :: ks =>
    match to_float (pyGet row k) with
    | some v => some v
    | none => firstFloat row ks

/-- `get_prev_close_value` of `app.py`: the first previous-close alias
whose value numerically coerces. -/
def get_prev_close_value (row : Row) (pfx : String) : Option ℚ :=
  firstFloat row (prevCloseAliases pfx)

/-- `add_change_fields` of `app.py`: derive `PrevClose` and `PctChange`
for one side (`pfx` ∈ {"CE", "PE"}) of a row. -/
def add_change_fields (row : Row) (pfx : String) : Row :=
  let ltp := to_float (pyGet row (pfx ++ "_LTP"))
  let abs_chg := to_float (pyGet row (pfx ++ "_AbsoluteChange"))
  let prev0 := get_prev_close_value row pfx
  let prev_close : Option ℚ :=
    match prev0, ltp, abs_chg with
    | none, some l, some a => some (l - a)
    | p, _, _ => p
  let pct_change : Option ℚ :=
    match prev_close with
    | some p =>
      if p = 0 then none
      else
        match abs_chg with
        | some a => some (a / p * 100)
        | none =>
          match ltp with
          | some l => some ((l - p) / p * 100)
          | none => none
    | none => none
  rowSet (rowSet row (pfx ++ "_PrevClose") (format_number prev_close))
    (pfx ++ "_PctChange") (format_number pct_change)

/-- `add_derived_fields` of `app.py`: apply the derived-field engine to
the CE side then the PE side of every row. -/
def add_derived_fields (rows : List Row) : List Row :=
  rows.map (fun row => add_change_fields (add_change_fields row "CE") "PE")

/-- `is_round_strike` of `app.py`: the strike must coerce via `float`;
a step `≤ 0` passes everything; otherwise the strike/step quotient
must be within `1e-6` of an integer (Python `round`, half to even). -/
def is_round_strike (value : Val) (step : ℚ) : Bool :=
  match pyFloat value with
  | none => false
  | some strike =>
    if step ≤ 0 then true
    else
      let quotient := strike / step
      decide (|quotient - (pyRound quotient : ℚ)| < 1 / 1000000)

/-- Sort key of `sort_rows_by_strike`: `float(row.get("CE_StrikePrice"))`,
with coercion failure standing for `float("inf")` (`none` = +infinity). -/
def strike_key (row : Row) : Option ℚ :=
  pyFloat (pyGet row "CE_StrikePrice")

/-- Order on strike keys with `none` as +infinity (non-strict). -/
def keyLe (a b : Option ℚ) : Bool :=
  match a, b with
  | _, none => true
  | none, some _ => false
  | some x, some y => decide (x ≤ y)

/-- Strict order on optional rationals with `none` as +infinity;
the comparison `min` uses on ATM-window distances. -/
def optLt (a b : Option ℚ) : Bool :=
  match a, b with
  | none, _ => false
  | some _, none => true
  | some x, some y => decide (x < y)

/-- `sort_rows_by_strike` of `app.py`: Python's stable `sorted` by the
numeric strike, non-coercible strikes keyed `+infinity`. -/
def sort_rows_by_strike (rows : List Row) : List Row :=
  rows.mergeSort (fun a b => keyLe (strike_key a) (strike_key b))

/-- The underlying-value alias keys scanned by `get_underlying_value`,
in order (the source lists `"UnderlineValue"` twice). -/
def underlyingAliases : List String :=
  ["UnderlyingValue", "UnderlineValue", "underlyingValue", "UnderlineValue"]

/-- Inner loop of `get_underlying_value` over one row: the first alias
whose value is neither empty-string nor null and coerces via `float`
(a non-coercible value is skipped and scanning continues). -/
def rowUnderlying (row : Row) : List String → Option ℚ
  | [] => none
  | k :: ks =>
    let val := pyGet row k
    if val = .str "" ∨ val = .null then rowUnderlying row ks
    else
      match pyFloat val with
      | some v => some v
      | none => rowUnderlying row ks

/-- `get_underlying_value` of `app.py`: scan the rows in order and
return the first underlying-value alias that is non-empty, non-null
and coerces to a number; `none` when no row yields one. -/
def get_underlying_value : List Row → Option ℚ
  | [] => none
  | row :: rest =>
    match rowUnderlying row underlyingAliases with
    | some v => some v
    | none => get_underlying_value rest

/-- Tail of Python's `min(range(n), key=...)` over an indexed list of
keys: keep the first index whose key is strictly smaller than the best
so far. -/
def argminAux : List (Option ℚ) → ℕ → ℕ × Option ℚ → ℕ
  | [], _, best => best.1
  | v :: rest, i, best =>
    argminAux rest (i + 1) (if optLt v best.2 then (i, v) else best)

/-- First index of a minimal element (`none` = +infinity), as computed
by Python's `min` over indices. -/
def argminIdx : List (Option ℚ) → ℕ
  | [] => 0
  | v :: rest => argminAux rest 1 (0, v)

/-- Python's builtin `abs` on a rational. -/
def pyAbs (q : ℚ) : ℚ :=
  if q < 0 then -q else q

/-- The per-row ATM distance `abs(strike - underlying)` used by
`filter_atm_window` (non-coercible strike = +infinity). -/
def atmDists (rows : List Row) (u : ℚ) : List (Option ℚ) :=
  rows.map (fun row => (pyFloat (pyGet row "CE_StrikePrice")).map (fun q => pyAbs (q - u)))

/-- `filter_atm_window` of `app.py`: unknown underlying or empty rows
pass through; otherwise keep the slice `[closest - window,
closest + window]` (clipped to bounds) around the first index whose
strike is nearest the underlying. -/
def filter_atm_window (rows : List Row) (underlying : Option ℚ) (window : ℕ) : List Row :=
  match underlying with
  | none => rows
  | some u =>
    if rows.isEmpty then rows
    else
      let closest := argminIdx (atmDists rows u)
      let start := closest - window
      let stop := min rows.length (closest + window + 1)
      (rows.drop start).take (stop - start)

/-- `apply_offset_limit` of `app.py`: Python slice `rows[start:]` or
`rows[start : start + limit]` with `start = max(offset or 0, 0)`.
(The API layer guarantees `limit ≥ 1`, hence the `ℕ` type.) -/
def apply_offset_limit (rows : List Row) (offset : Option ℤ) (limit : Option ℕ) : List Row :=
  let start0 := offset.getD 0
  let start := if start0 < 0 then 0 else start0
  match limit with
  | none => rows.drop start.toNat
  | some l => (rows.drop start.toNat).take l

/-- The post-cache row pipeline of the `/api/option-chain` handler
(`app.py` lines 277-284): discover the underlying, sort by strike,
default `mode` to `"atm_window"` when only `window` is given, apply
the ATM window when in that mode, then paginate. -/
def option_chain_pipeline (rows0 : List Row) (mode : Option String) (window : Option ℕ)
    (offset : Option ℤ) (limit : Option ℕ) : List Row :=
  let underlying := get_underlying_value rows0
  let rows := sort_rows_by_strike rows0
  let mode1 := if mode = none && window ≠ none then some "atm_window" else mode
  let rows1 := if mode1 = some "atm_window" then filter_atm_window rows underlying (window.getD 0) else rows
  apply_offset_limit rows1 offset limit

/-- Offset-and-close tail of the sentinel date encoding: either `)/`
directly, or `±HHMM)/`, returning the signed offset in minutes. -/
def parseOffsetTail (cs : List Char) : Option (Option ℤ) :=
  match cs with
  | [')', '/'] => some none
  | [c, d1, d2, d3, d4, ')', '/'] =>
    if (c = '+' || c = '-') && isDigit d1 && isDigit d2 && isDigit d3 && isDigit d4 then
      let hours := digitsToNat [d1, d2]
      let minutes := digitsToNat [d3, d4]
      let total : ℤ := hours * 60 + minutes
      some (some (if c = '+' then total else -total))
    else none
  | _ => none

/-- The anchored regex `^/Date\(([-+]?\d+)([+-]\d{4})?\)/$` of `app.py`:
embedded epoch milliseconds and optional signed offset (in minutes). -/
def matchDotnetDate (s : String) : Option (ℤ × Option ℤ) :=
  match s.toList with
  | '/' :: 'D' :: 'a' :: 't' :: 'e' :: '(' :: rest =>
    let signed : ℤ × List Char :=
      match rest with
      | '+' :: r => (1, r)
      | '-' :: r => (-1, r)
      | r => (1, r)
    let s2 := signed.2.span isDigit
    if s2.1.isEmpty then none
    else (parseOffsetTail s2.2).map (fun off => (signed.1 * (digitsToNat s2.1 : ℤ), off))
  | _ => none

/-- Civil date (year, month, day) of a count of days since 1970-01-01
(proleptic Gregorian; Hinnant's algorithm, as used by Python's
`datetime`). -/
def civilFromDays (z0 : ℤ) : ℤ × ℕ × ℕ :=
  let z := z0 + 719468
  let era := z.fdiv 146097
  let doe := (z.emod 146097).toNat
  let yoe := (doe - doe / 1460 + doe / 36524 - doe / 146096) / 365
  let y := (yoe : ℤ) + era * 400
  let doy := doe - (365 * yoe + yoe / 4 - yoe / 100)
  let mp := (5 * doy + 2) / 153
  let d := doy - (153 * mp + 2) / 5 + 1
  let m := if mp < 10 then mp + 3 else mp - 9
  (if m ≤ 2 then y + 1 else y, m, d)

/-- Zero-pad to two digits. -/
def pad2 (n : ℕ) : String :=
  if n < 10 then "0" ++ toString n else toString n

/-- Zero-pad to four digits (years). -/
def pad4 (n : ℕ) : String :=
  if n < 10 then "000" ++ toString n
  else if n < 100 then "00" ++ toString n
  else if n < 1000 then "0" ++ toString n
  else toString n

/-- The UTC-offset suffix `±HH:MM` that Python's `isoformat` appends to
an offset-aware datetime. -/
def renderOffset (offMinutes : ℤ) : String :=
  let sign := if offMinutes < 0 then "-" else "+"
  let a := offMinutes.natAbs
  sign ++ pad2 (a / 60) ++ ":" ++ pad2 (a % 60)

/-- `dt.isoformat(sep=" ", timespec="seconds")` for an offset-aware
datetime: `YYYY-MM-DD HH:MM:SS±HH:MM`, where `localSeconds` is the
epoch-second count already shifted into the zone `offMinutes`. -/
def formatLocalDateTime (localSeconds : ℤ) (offMinutes : ℤ) : String :=
  let days := localSeconds.fdiv 86400
  let secs := (localSeconds.emod 86400).toNat
  let c := civilFromDays days
  pad4 c.1.toNat ++ "-" ++ pad2 c.2.1 ++ "-" ++ pad2 c.2.2 ++ " " ++
    pad2 (secs / 3600) ++ ":" ++ pad2 (secs % 3600 / 60) ++ ":" ++ pad2 (secs % 60) ++
    renderOffset offMinutes

/-- `parse_dotnet_date` of `app.py`: non-matching strings pass through;
an embedded millisecond value `≤ 0` yields the empty string; otherwise
the instant is rendered in the embedded offset's zone, or in UTC+5:30
(330 minutes) when no offset is present. Seconds are the floor of
`ms / 1000`, as truncated by `timespec="seconds"`. -/
def parse_dotnet_date (value : String) : String :=
  match matchDotnetDate value with
  | none => value
  | some (ms, off) =>
    if ms ≤ 0 then ""
    else
      let offMinutes := off.getD 330
      formatLocalDateTime (ms.fdiv 1000 + offMinutes * 60) offMinutes

/-- `normalize_rows` of `app.py` on one value: null becomes the empty
string, strings are trimmed and passed through the sentinel date
rewrite, everything else passes through unchanged. -/
def normalizeVal (v : Val) : Val :=
  let v1 := if v = .null then .str "" else v
  match v1 with
  | .str s => .str (parse_dotnet_date s.trim)
  | other => other

/-- `normalize_rows` of `app.py`: normalize every field of every row
(rows are dicts here, so the non-dict skip branch is vacuous). -/
def normalize_rows (rows : List Row) : List Row :=
  rows.map (fun row => row.map (fun kv => (kv.1, normalizeVal kv.2)))

/-- One entry of the freshness cache: the processed row set and the
time it was fetched. -/
structure CacheEntry where
  rows : List Row
  fetched_at : ℚ

/-- The per-key cache map (`CACHE` of `app.py`). -/
def CacheMap := String → Option CacheEntry

/-- `CACHE[cache_key] = {...}` of Python: store `e` under `key`,
overwriting any prior entry for that key. -/
def updateCache (cache : CacheMap) (key : String) (e : CacheEntry) : CacheMap :=
  fun k => if k = key then some e else cache k

/-- `get_cached_rows` of `app.py`. The composite cache key is taken as
a parameter; `now` is the sampled clock; `fetch` stands for the
source-specific upstream fetch (plus source normalization), which
either yields raw rows or raises. The returned `Bool` records whether
the fetcher was invoked. On a fresh hit (`force` false, entry younger
than `ttl`) the stored rows and timestamp are returned and the cache
is untouched; otherwise the fetched rows get derived fields, are
filtered to round strikes unless `all_strikes`, stored under the key
with `fetched_at = now`, and returned. A fetch error propagates and
leaves the cache unchanged. -/
def get_cached_rows (cache : CacheMap) (key : String) (now ttl : ℚ) (force : Bool)
    (fetch : Except String (List Row)) (all_strikes : Bool) (strike_step : ℚ) :
    Except String (List Row × ℚ) × CacheMap × Bool :=
  let hit : Option CacheEntry :=
    if force then none
    else
      match cache key with
      | some e => if now - e.fetched_at < ttl then some e else none
      | none => none
  match hit with
  | some e => (.ok (e.rows, e.fetched_at), cache, false)
  | none =>
    match fetch with
    | .error err => (.error err, cache, true)
    | .ok fetched =>
      let rows := add_derived_fields fetched
      let rows1 :=
        if all_strikes then rows
        else rows.filter (fun r => is_round_strike (pyGet r "CE_StrikePrice") strike_step)
      (.ok (rows1, now), updateCache cache key ⟨rows1, now⟩, true)

/-- The previous-close option computed inside `add_change_fields`
(alias lookup, with `LTP - AbsoluteChange` as derived fallback). -/
def acfPrev (row : Row) (pfx : String) : Option ℚ :=
  match get_prev_close_value row pfx, to_float (pyGet row (pfx ++ "_LTP")),
      to_float (pyGet row (pfx ++ "_AbsoluteChange")) with
  | none, some l, some a => some (l - a)
  | p, _, _ => p

/-- The percent-change option computed inside `add_change_fields`. -/
def acfPct (row : Row) (pfx : String) : Option ℚ :=
  match acfPrev row pfx with
  | some p =>
    if p = 0 then none
    else
      match to_float (pyGet row (pfx ++ "_AbsoluteChange")) with
      | some a => some (a / p * 100)
      | none =>
        match to_float (pyGet row (pfx ++ "_LTP")) with
        | some l => some ((l - p) / p * 100)
        | none => none
  | none => none

/-- A field value that is either the empty string or a numeric value
fixed by 2-decimal rounding. -/
def numOrEmpty (v : Val) : Prop :=
  v = .str "" ∨ ∃ q, v = .num q ∧ round2 q = q

/-- The canonical-row invariant: all four derived fields are
numeric-rounded-or-empty. -/
def RowInv (r : Row) : Prop :=
  numOrEmpty (pyGet r "CE_PrevClose") ∧ numOrEmpty (pyGet r "CE_PctChange")
  ∧ numOrEmpty (pyGet r "PE_PrevClose") ∧ numOrEmpty (pyGet r "PE_PctChange")

/-- Every row set stored in the cache satisfies the row invariant. -/
def CacheInv (c : CacheMap) : Prop :=
  ∀ k e, c k = some e → ∀ r ∈ e.rows, RowInv r

/-- A call misses the cache when forced, when no entry exists, or when
the entry has expired. -/
def MissCond (cache : CacheMap) (key : String) (now ttl : ℚ) (force : Bool) : Prop :=
  force = true ∨ cache key = none ∨ (∀ e, cache key = some e → ¬ now - e.fetched_at < ttl)

/-! ### Helper lemmas -/

theorem pyGet_rowSet_self (r : Row) (k : String) (v : Val) :
    pyGet (rowSet r k v) k = v := by
  simp [pyGet, rowSet, List.lookup]

theorem pyGet_rowSet_ne (r : Row) (k kq : String) (v : Val) (h : kq ≠ k) :
    pyGet (rowSet r k v) kq = pyGet r kq := by
  have hb : (kq == k) = false := beq_eq_false_iff_ne.mpr h
  simp [pyGet, rowSet, List.lookup, hb]

theorem pyRound_intCast (n : ℤ) : pyRound (n : ℚ) = n := by
  unfold pyRound
  norm_num

theorem round2_idem (q : ℚ) : round2 (round2 q) = round2 q := by
  unfold round2
  rw [div_mul_cancel₀ _ (by norm_num : (100 : ℚ) ≠ 0), pyRound_intCast]

/-- A rational that is already an exact 2-decimal value is fixed by
`round2`. -/
theorem round2_eq_self (q : ℚ) (n : ℤ) (h : q * 100 = (n : ℚ)) : round2 q = q := by
  unfold round2
  rw [h, pyRound_intCast, ← h]
  field_simp

/-- `pyRound` is a nearest integer. -/
theorem pyRound_nearest (x : ℚ) (n : ℤ) :
    |x - (pyRound x : ℚ)| ≤ |x - (n : ℚ)| := by
  have hf : (⌊x⌋ : ℚ) ≤ x := Int.floor_le x
  have hc : x < ⌊x⌋ + 1 := Int.lt_floor_add_one x
  have h1 : x - (n : ℚ) ≤ |x - (n : ℚ)| := le_abs_self _
  have h2 : (n : ℚ) - x ≤ |x - (n : ℚ)| := by
    rw [abs_sub_comm]; exact le_abs_self _
  have h0 : (0 : ℚ) ≤ |x - (n : ℚ)| := abs_nonneg _
  have hn' : (n : ℚ) ≤ (⌊x⌋ : ℚ) ∨ ((⌊x⌋ : ℚ) + 1 ≤ (n : ℚ)) := by
    have hn : n ≤ ⌊x⌋ ∨ ⌊x⌋ + 1 ≤ n := by omega
    rcases hn with h | h
    · exact Or.inl (by exact_mod_cast h)
    · exact Or.inr (by exact_mod_cast h)
  simp only [pyRound]
  split_ifs with hb1 hb2 hb3 <;> push_cast <;> rw [abs_le] <;>
    rcases hn' with h | h <;> constructor <;> linarith

/-! ### C4: is_round_strike -/

/-- C4: `is_round_strike` returns false when the strike does not
coerce via `float`; for `step ≤ 0` it accepts every coercible strike;
for `step > 0` it accepts exactly the strikes whose quotient by the
step is within `1e-6` of some integer. -/
theorem C4_is_round_strike (v : Val) (step : ℚ) :
    (pyFloat v = none → is_round_strike v step = false)
  ∧ (step ≤ 0 → ∀ q : ℚ, pyFloat v = some q → is_round_strike v step = true)
  ∧ (0 < step → (is_round_strike v step = true ↔
      ∃ (q : ℚ) (n : ℤ), pyFloat v = some q ∧ |q / step - (n : ℚ)| < 1 / 1000000)) := by
  refine ⟨?_, ?_, ?_⟩
  · intro h
    simp [is_round_strike, h]
  · intro hstep q hq
    simp [is_round_strike, hq, if_pos hstep]
  · intro hstep
    have hns : ¬ step ≤ 0 := not_le.mpr hstep
    cases hv : pyFloat v with
    | none =>
      simp only [is_round_strike, hv]
      constructor
      · intro h; cases h
      · rintro ⟨q, n, hq, -⟩; cases hq
    | some q =>
      simp only [is_round_strike, hv, if_neg hns]
      constructor
      · intro h
        exact ⟨q, pyRound (q / step), rfl, of_decide_eq_true h⟩
      · rintro ⟨q', n, hq', hn⟩
        have hqq : q' = q := by
          injection hq' with h; exact h.symm
        subst hqq
        apply decide_eq_true
        exact lt_of_le_of_lt (pyRound_nearest (q' / step) n) hn

/-- C4 witness: `is_round_strike(10000, 5000)` is true,
`is_round_strike(10001, 5000)` is false, `is_round_strike(10001, 0)`
is true. -/
theorem C4_witness :
    is_round_strike (.num 10000) 5000 = true
  ∧ is_round_strike (.num 10001) 5000 = false
  ∧ is_round_strike (.num 10001) 0 = true := by
  refine ⟨?_, ?_, ?_⟩
  · exact ((C4_is_round_strike (.num 10000) 5000).2.2 (by norm_num)).mpr
      ⟨10000, 2, rfl, by norm_num⟩
  · have h := (C4_is_round_strike (.num 10001) 5000).2.2 (by norm_num)
    rw [← Bool.not_eq_true, h]
    rintro ⟨q, n, hq, hn⟩
    have hqq : q = 10001 := by injection hq with h'; exact h'.symm
    subst hqq
    rw [abs_lt] at hn
    have h2 : (2 : ℚ) < (n : ℚ) := by
      have := hn.2
      norm_num at this ⊢
      linarith
    have h3 : (n : ℚ) < 3 := by
      have := hn.1
      norm_num at this ⊢
      linarith
    have h2' : (2 : ℤ) < n := by exact_mod_cast h2
    have h3' : n < 3 := by exact_mod_cast h3
    omega
  · exact (C4_is_round_strike (.num 10001) 0).2.1 le_rfl 10001 rfl

/-! ### C8: pagination -/

/-- C8: pagination defaults a missing offset to 0, clamps a negative
offset to 0, returns the tail from the offset with no limit, returns
the `limit`-bounded slice starting at the offset otherwise (hence at
most `limit` rows), and in the option-chain pipeline runs strictly
after the ATM window slice. -/
theorem C8_pagination (rows : List Row) (offset : Option ℤ) (limit : Option ℕ)
    (o : ℤ) (l : ℕ) (window : Option ℕ) :
    (apply_offset_limit rows none limit = apply_offset_limit rows (some 0) limit)
  ∧ (o < 0 → apply_offset_limit rows (some o) limit = apply_offset_limit rows (some 0) limit)
  ∧ (0 ≤ o → apply_offset_limit rows (some o) none = rows.drop o.toNat)
  ∧ (0 ≤ o → apply_offset_limit rows (some o) (some l) = (rows.drop o.toNat).take l)
  ∧ (apply_offset_limit rows (some o) (some l)).length ≤ l
  ∧ (option_chain_pipeline rows (some "atm_window") window offset limit =
      apply_offset_limit
        (filter_atm_window (sort_rows_by_strike rows) (get_underlying_value rows)
          (window.getD 0))
        offset limit) := by
  refine ⟨rfl, ?_, ?_, ?_, ?_, ?_⟩
  · intro ho
    simp [apply_offset_limit, if_pos ho]
  · intro ho
    simp [apply_offset_limit, if_neg (not_lt.mpr ho)]
  · intro ho
    simp [apply_offset_limit, if_neg (not_lt.mpr ho)]
  · simp only [apply_offset_limit, List.length_take]
    split_ifs <;> omega
  · simp [option_chain_pipeline]

/-- C8 witness: `offset=2, limit=2` over 5 rows returns the rows at
positions 2 and 3. -/
theorem C8_witness :
    apply_offset_limit
      [[("CE_StrikePrice", Val.num 100)], [("CE_StrikePrice", Val.num 200)],
       [("CE_StrikePrice", Val.num 300)], [("CE_StrikePrice", Val.num 400)],
       [("CE_StrikePrice", Val.num 500)]] (some 2) (some 2) =
      [[("CE_StrikePrice", Val.num 300)], [("CE_StrikePrice", Val.num 400)]] := by
  rw [(C8_pagination _ none none 2 2 none).2.2.2.1 (by norm_num)]
  rfl

/-! ### C1: derived change fields -/

theorem add_change_fields_eq (row : Row) (pfx : String) :
    add_change_fields row pfx =
      rowSet (rowSet row (pfx ++ "_PrevClose") (format_number (acfPrev row pfx)))
        (pfx ++ "_PctChange") (format_number (acfPct row pfx)) := rfl

theorem pyGet_acf_pct (row : Row) (pfx : String) :
    pyGet (add_change_fields row pfx) (pfx ++ "_PctChange") =
      format_number (acfPct row pfx) := by
  rw [add_change_fields_eq]
  exact pyGet_rowSet_self _ _ _

theorem pyGet_acf_prev (row : Row) (pfx : String)
    (hk : pfx ++ "_PrevClose" ≠ pfx ++ "_PctChange") :
    pyGet (add_change_fields row pfx) (pfx ++ "_PrevClose") =
      format_number (acfPrev row pfx) := by
  rw [add_change_fields_eq, pyGet_rowSet_ne _ _ _ _ hk]
  exact pyGet_rowSet_self _ _ _

theorem pyGet_acf_other (row : Row) (pfx k : String)
    (h1 : k ≠ pfx ++ "_PrevClose") (h2 : k ≠ pfx ++ "_PctChange") :
    pyGet (add_change_fields row pfx) k = pyGet row k := by
  rw [add_change_fields_eq, pyGet_rowSet_ne _ _ _ _ h2, pyGet_rowSet_ne _ _ _ _ h1]

/-- C1: for each side CE/PE, when no previous-close alias coerces and
both LTP and AbsoluteChange do, `PrevClose` is set to
`LTP - AbsoluteChange`; `PctChange` is `(AbsoluteChange/PrevClose)*100`
when the (possibly derived) previous close is nonzero and the absolute
change is known, else `((LTP - PrevClose)/PrevClose)*100` when LTP is
known; it is empty when the previous close is absent or zero; and both
derived fields are a 2-decimal rounding or empty. -/
theorem C1_derived_fields (row : Row) (pfx : String) (hp : pfx = "CE" ∨ pfx = "PE") :
    (∀ l a : ℚ, get_prev_close_value row pfx = none →
      to_float (pyGet row (pfx ++ "_LTP")) = some l →
      to_float (pyGet row (pfx ++ "_AbsoluteChange")) = some a →
      pyGet (add_change_fields row pfx) (pfx ++ "_PrevClose") = .num (round2 (l - a))
      ∧ (l - a ≠ 0 → pyGet (add_change_fields row pfx) (pfx ++ "_PctChange") =
          .num (round2 (a / (l - a) * 100)))
      ∧ (l - a = 0 → pyGet (add_change_fields row pfx) (pfx ++ "_PctChange") = .str ""))
  ∧ (∀ p a : ℚ, get_prev_close_value row pfx = some p → p ≠ 0 →
      to_float (pyGet row (pfx ++ "_AbsoluteChange")) = some a →
      pyGet (add_change_fields row pfx) (pfx ++ "_PctChange") = .num (round2 (a / p * 100)))
  ∧ (∀ p l : ℚ, get_prev_close_value row pfx = some p → p ≠ 0 →
      to_float (pyGet row (pfx ++ "_AbsoluteChange")) = none →
      to_float (pyGet row (pfx ++ "_LTP")) = some l →
      pyGet (add_change_fields row pfx) (pfx ++ "_PctChange") =
        .num (round2 ((l - p) / p * 100)))
  ∧ (get_prev_close_value row pfx = some 0 →
      pyGet (add_change_fields row pfx) (pfx ++ "_PctChange") = .str "")
  ∧ (get_prev_close_value row pfx = none →
      (to_float (pyGet row (pfx ++ "_LTP")) = none ∨
        to_float (pyGet row (pfx ++ "_AbsoluteChange")) = none) →
      pyGet (add_change_fields row pfx) (pfx ++ "_PrevClose") = .str ""
      ∧ pyGet (add_change_fields row pfx) (pfx ++ "_PctChange") = .str "")
  ∧ (pyGet (add_change_fields row pfx) (pfx ++ "_PrevClose") = .str ""
      ∨ ∃ q, pyGet (add_change_fields row pfx) (pfx ++ "_PrevClose") = .num (round2 q))
  ∧ (pyGet (add_change_fields row pfx) (pfx ++ "_PctChange") = .str ""
      ∨ ∃ q, pyGet (add_change_fields row pfx) (pfx ++ "_PctChange") = .num (round2 q)) := by
  have hk : pfx ++ "_PrevClose" ≠ pfx ++ "_PctChange" := by
    obtain rfl | rfl := hp <;> decide
  have hprev := pyGet_acf_prev row pfx hk
  have hpct := pyGet_acf_pct row pfx
  refine ⟨?_, ?_, ?_, ?_, ?_, ?_, ?_⟩
  · intro l a hP hL hA
    have e1 : acfPrev row pfx = some (l - a) := by
      simp [acfPrev, hP, hL, hA]
    refine ⟨by rw [hprev, e1]; rfl, ?_, ?_⟩
    · intro hne
      rw [hpct]
      simp [acfPct, e1, hA, hne, format_number]
    · intro hz
      rw [hpct]
      simp [acfPct, e1, hz, format_number]
  · intro p a hP hp0 hA
    have e1 : acfPrev row pfx = some p := by
      simp [acfPrev, hP]
    rw [hpct]
    simp [acfPct, e1, hA, hp0, format_number]
  · intro p l hP hp0 hA hL
    have e1 : acfPrev row pfx = some p := by
      simp [acfPrev, hP]
    rw [hpct]
    simp [acfPct, e1, hA, hL, hp0, format_number]
  · intro hP
    have e1 : acfPrev row pfx = some 0 := by
      simp [acfPrev, hP]
    rw [hpct]
    simp [acfPct, e1, format_number]
  · intro hP hLA
    have e1 : acfPrev row pfx = none := by
      rcases hLA with hL | hA
      · simp [acfPrev, hP, hL]
      · cases hL2 : to_float (pyGet row (pfx ++ "_LTP")) <;>
          simp [acfPrev, hP, hA, hL2]
    exact ⟨by rw [hprev, e1]; rfl, by rw [hpct]; simp [acfPct, e1, format_number]⟩
  · cases h : acfPrev row pfx with
    | none => exact Or.inl (by rw [hprev, h]; rfl)
    | some q => exact Or.inr ⟨q, by rw [hprev, h]; rfl⟩
  · cases h : acfPct row pfx with
    | none => exact Or.inl (by rw [hpct, h]; rfl)
    | some q => exact Or.inr ⟨q, by rw [hpct, h]; rfl⟩

/-- C1 witness: a row with `LTP=105, AbsoluteChange=5` and no
`PrevClose` gets `PrevClose=100` and `PctChange=5.0`; a row with
`PrevClose=0` gets empty `PctChange`. -/
theorem C1_witness :
    pyGet (add_change_fields [("CE_LTP", Val.num 105), ("CE_AbsoluteChange", Val.num 5)] "CE")
        "CE_PrevClose" = Val.num 100
  ∧ pyGet (add_change_fields [("CE_LTP", Val.num 105), ("CE_AbsoluteChange", Val.num 5)] "CE")
        "CE_PctChange" = Val.num 5
  ∧ pyGet (add_change_fields [("CE_LTP", Val.num 105), ("CE_PrevClose", Val.num 0)] "CE")
        "CE_PctChange" = Val.str "" := by
  have h := (C1_derived_fields [("CE_LTP", Val.num 105), ("CE_AbsoluteChange", Val.num 5)] "CE"
    (Or.inl rfl)).1 105 5 (by decide) (by decide) (by decide)
  have hz := (C1_derived_fields [("CE_LTP", Val.num 105), ("CE_PrevClose", Val.num 0)] "CE"
    (Or.inl rfl)).2.2.2.1 (by decide)
  have e1 : ("CE" ++ "_PrevClose" : String) = "CE_PrevClose" := rfl
  have e2 : ("CE" ++ "_PctChange" : String) = "CE_PctChange" := rfl
  refine ⟨?_, ?_, ?_⟩
  · have h1 := h.1
    rw [e1] at h1
    rw [h1]
    have hr : round2 (105 - 5 : ℚ) = 100 := by
      rw [round2_eq_self (105 - 5 : ℚ) 10000 (by norm_num)]
      norm_num
    rw [hr]
  · have h2 := h.2.1 (by norm_num)
    rw [e2] at h2
    rw [h2]
    have hr : round2 (5 / (105 - 5) * 100 : ℚ) = 5 := by
      rw [round2_eq_self (5 / (105 - 5) * 100 : ℚ) 500 (by norm_num)]
      norm_num
    rw [hr]
  · exact hz

/-! ### C9: numeric-or-empty invariant -/

theorem numOrEmpty_format (o : Option ℚ) : numOrEmpty (format_number o) := by
  cases o with
  | none => exact Or.inl rfl
  | some q => exact Or.inr ⟨round2 q, rfl, round2_idem q⟩

theorem RowInv_add_change (r₀ : Row) :
    RowInv (add_change_fields (add_change_fields r₀ "CE") "PE") := by
  have ePE1 : ("PE" ++ "_PrevClose" : String) = "PE_PrevClose" := rfl
  have ePE2 : ("PE" ++ "_PctChange" : String) = "PE_PctChange" := rfl
  have eCE1 : ("CE" ++ "_PrevClose" : String) = "CE_PrevClose" := rfl
  have eCE2 : ("CE" ++ "_PctChange" : String) = "CE_PctChange" := rfl
  refine ⟨?_, ?_, ?_, ?_⟩
  · rw [← eCE1, pyGet_acf_other _ _ _ (by decide) (by decide), pyGet_acf_prev _ _ (by decide)]
    exact numOrEmpty_format _
  · rw [← eCE2, pyGet_acf_other _ _ _ (by decide) (by decide), pyGet_acf_pct]
    exact numOrEmpty_format _
  · rw [← ePE1, pyGet_acf_prev _ _ (by decide)]
    exact numOrEmpty_format _
  · rw [← ePE2, pyGet_acf_pct]
    exact numOrEmpty_format _

theorem RowInv_add_derived (rows : List Row) : ∀ r ∈ add_derived_fields rows, RowInv r := by
  intro r hr
  obtain ⟨r₀, -, rfl⟩ := List.mem_map.mp hr
  exact RowInv_add_change r₀

/-! ### Cache reduction lemmas -/

theorem get_cached_rows_hit (cache : CacheMap) (key : String) (now ttl : ℚ)
    (fetch : Except String (List Row)) (all_strikes : Bool) (step : ℚ)
    (e : CacheEntry) (hck : cache key = some e) (hlive : now - e.fetched_at < ttl) :
    get_cached_rows cache key now ttl false fetch all_strikes step =
      (.ok (e.rows, e.fetched_at), cache, false) := by
  simp [get_cached_rows, hck, hlive]

theorem get_cached_rows_hitNone (cache : CacheMap) (key : String) (now ttl : ℚ)
    (force : Bool) (hmiss : MissCond cache key now ttl force) :
    (if force then none
     else
       match cache key with
       | some e => if now - e.fetched_at < ttl then some e else none
       | none => none) = (none : Option CacheEntry) := by
  rcases hmiss with hforce | hnone | hexp
  · simp [hforce]
  · cases force <;> simp [hnone]
  · cases force
    · cases hck : cache key with
      | none => simp
      | some e0 => simp [hck, hexp e0 hck]
    · simp

theorem get_cached_rows_miss_error (cache : CacheMap) (key : String) (now ttl : ℚ)
    (force : Bool) (err : String) (all_strikes : Bool) (step : ℚ)
    (hmiss : MissCond cache key now ttl force) :
    get_cached_rows cache key now ttl force (.error err) all_strikes step =
      (.error err, cache, true) := by
  have h := get_cached_rows_hitNone cache key now ttl force hmiss
  simp only [get_cached_rows, h]

theorem get_cached_rows_miss_ok (cache : CacheMap) (key : String) (now ttl : ℚ)
    (force : Bool) (raw : List Row) (all_strikes : Bool) (step : ℚ)
    (hmiss : MissCond cache key now ttl force) :
    get_cached_rows cache key now ttl force (.ok raw) all_strikes step =
      (.ok ((if all_strikes then add_derived_fields raw
          else (add_derived_fields raw).filter
            (fun r => is_round_strike (pyGet r "CE_StrikePrice") step)), now),
        updateCache cache key
          ⟨(if all_strikes then add_derived_fields raw
            else (add_derived_fields raw).filter
              (fun r => is_round_strike (pyGet r "CE_StrikePrice") step)), now⟩,
        true) := by
  have h := get_cached_rows_hitNone cache key now ttl force hmiss
  simp only [get_cached_rows, h]

/-- C9: every row produced by the derived-field engine satisfies the
numeric-rounded-or-empty invariant on all four derived fields, and the
invariant is preserved by the cache: starting from an invariant-holding
cache, any `get_cached_rows` call leaves an invariant-holding cache and
every row set it returns satisfies the invariant. -/
theorem C9_num_or_empty (raw : List Row) (cache : CacheMap) (key : String) (now ttl : ℚ)
    (force : Bool) (fetch : Except String (List Row)) (all_strikes : Bool) (step : ℚ) :
    (∀ r ∈ add_derived_fields raw, RowInv r)
  ∧ (CacheInv cache →
      CacheInv (get_cached_rows cache key now ttl force fetch all_strikes step).2.1
    ∧ (∀ R t, (get_cached_rows cache key now ttl force fetch all_strikes step).1 = .ok (R, t) →
        ∀ r ∈ R, RowInv r)) := by
  refine ⟨RowInv_add_derived raw, ?_⟩
  intro hc
  by_cases hmiss : MissCond cache key now ttl force
  · cases fetch with
    | error err =>
      rw [get_cached_rows_miss_error cache key now ttl force err all_strikes step hmiss]
      exact ⟨hc, by intro R t h; cases h⟩
    | ok raw2 =>
      rw [get_cached_rows_miss_ok cache key now ttl force raw2 all_strikes step hmiss]
      dsimp only
      have hrows : ∀ r ∈ (if all_strikes then add_derived_fields raw2
          else (add_derived_fields raw2).filter
            (fun r => is_round_strike (pyGet r "CE_StrikePrice") step)), RowInv r := by
        intro r hr
        apply RowInv_add_derived raw2
        by_cases ha : all_strikes
        · simpa [ha] using hr
        · rw [if_neg ha] at hr
          exact List.mem_of_mem_filter hr
      constructor
      · intro k e hk r hr
        simp only [updateCache] at hk
        by_cases hkey : k = key
        · rw [if_pos hkey] at hk
          injection hk with hk
          subst hk
          exact hrows r hr
        · rw [if_neg hkey] at hk
          exact hc k e hk r hr
      · intro R t h r hr
        injection h with h
        injection h with h1 h2
        subst h1
        exact hrows r hr
  · -- not a miss: force is false and a live entry exists
    unfold MissCond at hmiss
    push_neg at hmiss
    obtain ⟨hforce, hsome, hlive⟩ := hmiss
    have hforce2 : force = false := by
      cases force
      · rfl
      · exact absurd rfl hforce
    subst hforce2
    obtain ⟨e, hck⟩ := Option.ne_none_iff_exists'.mp hsome
    obtain ⟨e', hck', hlt⟩ := hlive
    have hee : e' = e := by
      rw [hck] at hck'
      injection hck' with h
      exact h.symm
    rw [hee] at hlt
    rw [get_cached_rows_hit cache key now ttl fetch all_strikes step e hck hlt]
    refine ⟨hc, ?_⟩
    intro R t h r hr
    injection h with h
    injection h with h1 h2
    subst h1
    exact hc key e hck r hr

/-- C9 witness: the invariant holds for a concrete derived row set and
for a concrete cache call starting from the empty (hence
invariant-holding) cache. -/
theorem C9_witness :
    (∀ r ∈ add_derived_fields [[("CE_LTP", Val.num 105), ("CE_AbsoluteChange", Val.num 5)]],
      RowInv r)
  ∧ CacheInv (get_cached_rows (fun _ => none) "k" 0 600 false
      (.ok [[("CE_LTP", Val.num 105), ("CE_AbsoluteChange", Val.num 5)]]) true 5000).2.1 := by
  have h := C9_num_or_empty [[("CE_LTP", Val.num 105), ("CE_AbsoluteChange", Val.num 5)]]
    (fun _ => none) "k" 0 600 false
    (.ok [[("CE_LTP", Val.num 105), ("CE_AbsoluteChange", Val.num 5)]]) true 5000
  have hinv : CacheInv (fun _ => none) := by
    intro k e hk
    cases hk
  exact ⟨h.1, (h.2 hinv).1⟩

/-! ### C2: cache freshness semantics -/

/-- C2: with `force` false and a live entry (age strictly below the
TTL) the stored rows and timestamp are returned without invoking the
fetcher and the cache is untouched; any other call (forced, missing or
expired entry) invokes the fetcher, stores the processed rows with
`fetchedAt = now` under the key (overwriting any prior entry), and
returns exactly what it stored; hence two cold-start calls with the
same key and `force` false within the TTL invoke the fetcher exactly
once. -/
theorem C2_cache_semantics (cache : CacheMap) (key : String) (now now2 ttl : ℚ)
    (fetch fetch2 : Except String (List Row)) (all_strikes : Bool) (step : ℚ)
    (e : CacheEntry) (raw : List Row) :
    (cache key = some e → now - e.fetched_at < ttl →
      get_cached_rows cache key now ttl false fetch all_strikes step =
        (.ok (e.rows, e.fetched_at), cache, false))
  ∧ (∀ force, MissCond cache key now ttl force → fetch = .ok raw →
      ∃ R, get_cached_rows cache key now ttl force fetch all_strikes step =
          (.ok (R, now), updateCache cache key ⟨R, now⟩, true)
        ∧ updateCache cache key ⟨R, now⟩ key = some ⟨R, now⟩
        ∧ ∀ k, k ≠ key → updateCache cache key ⟨R, now⟩ k = cache k)
  ∧ (cache key = none → fetch = .ok raw → now2 - now < ttl →
      ∃ R c1, get_cached_rows cache key now ttl false fetch all_strikes step =
          (.ok (R, now), c1, true)
        ∧ get_cached_rows c1 key now2 ttl false fetch2 all_strikes step =
          (.ok (R, now), c1, false)) := by
  refine ⟨?_, ?_, ?_⟩
  · intro hck hlive
    exact get_cached_rows_hit cache key now ttl fetch all_strikes step e hck hlive
  · intro force hmiss hf
    subst hf
    refine ⟨_, get_cached_rows_miss_ok cache key now ttl force raw all_strikes step hmiss,
      by simp [updateCache], ?_⟩
    intro k hk
    simp [updateCache, hk]
  · intro hck hf hlive
    subst hf
    have h1 := get_cached_rows_miss_ok cache key now ttl false raw all_strikes step
      (Or.inr (Or.inl hck))
    refine ⟨_, _, h1, ?_⟩
    have hc1 : updateCache cache key
        ⟨(if all_strikes then add_derived_fields raw
          else (add_derived_fields raw).filter
            (fun r => is_round_strike (pyGet r "CE_StrikePrice") step)), now⟩ key =
        some ⟨(if all_strikes then add_derived_fields raw
          else (add_derived_fields raw).filter
            (fun r => is_round_strike (pyGet r "CE_StrikePrice") step)), now⟩ := by
      simp [updateCache]
    exact get_cached_rows_hit _ key now2 ttl fetch2 all_strikes step _ hc1 hlive

/-- C2 witness: a concrete cold-start call followed by a call within
the TTL returns the stored rows without invoking the fetcher (the
second call's fetcher is an error that never surfaces). -/
theorem C2_witness :
    ∃ R c1, get_cached_rows (fun _ => none) "k" 0 600 false (.ok []) true 5000 =
        (.ok (R, 0), c1, true)
      ∧ get_cached_rows c1 "k" 1 600 false (.error "down") true 5000 =
        (.ok (R, 0), c1, false) :=
  (C2_cache_semantics (fun _ => none) "k" 0 1 600 (.ok []) (.error "down") true 5000
    ⟨[], 0⟩ []).2.2 rfl rfl (by norm_num)

/-! ### C10: fetch failure leaves the cache untouched -/

/-- C10: when the upstream fetch raises during a cache miss or a
forced refresh, the error propagates and the returned cache map is
exactly the input cache (no entry stored or overwritten). -/
theorem C10_fetch_error (cache : CacheMap) (key : String) (now ttl : ℚ) (force : Bool)
    (err : String) (all_strikes : Bool) (step : ℚ)
    (hmiss : MissCond cache key now ttl force) :
    get_cached_rows cache key now ttl force (.error err) all_strikes step =
      (.error err, cache, true) :=
  get_cached_rows_miss_error cache key now ttl force err all_strikes step hmiss

/-- C10 witness: a forced refresh whose fetch fails leaves a concrete
pre-existing entry in place and propagates the error. -/
theorem C10_witness :
    get_cached_rows (fun k => if k = "k" then some ⟨[], 42⟩ else none) "k" 100 600 true
        (.error "boom") false 5000 =
      (.error "boom", fun k => if k = "k" then some ⟨[], 42⟩ else none, true)
  ∧ (fun k => if k = "k" then some (⟨[], 42⟩ : CacheEntry) else none) "k" = some ⟨[], 42⟩ :=
  ⟨C10_fetch_error (fun k => if k = "k" then some ⟨[], 42⟩ else none) "k" 100 600 true
    "boom" false 5000 (Or.inl rfl), rfl⟩

/-! ### C3: sentinel date decoding (corrected) -/

/-- C3 (amended): a string not matching the sentinel encoding passes
through unchanged; an embedded millisecond value `≤ 0` decodes to the
empty string; a positive value decodes to the local
`YYYY-MM-DD HH:MM:SS±HH:MM` rendering (Python's space-separated
`isoformat`, which carries the offset suffix) in the embedded offset's
zone, or in the fixed UTC+5:30 zone when no offset is present. -/
theorem C3_sentinel_date (s : String) :
    (matchDotnetDate s = none → parse_dotnet_date s = s)
  ∧ (∀ ms off, matchDotnetDate s = some (ms, off) → ms ≤ 0 → parse_dotnet_date s = "")
  ∧ (∀ ms o, matchDotnetDate s = some (ms, some o) → 0 < ms →
      parse_dotnet_date s = formatLocalDateTime (ms.fdiv 1000 + o * 60) o)
  ∧ (∀ ms, matchDotnetDate s = some (ms, none) → 0 < ms →
      parse_dotnet_date s = formatLocalDateTime (ms.fdiv 1000 + 330 * 60) 330) := by
  refine ⟨?_, ?_, ?_, ?_⟩
  · intro h
    simp [parse_dotnet_date, h]
  · intro ms off h hle
    simp [parse_dotnet_date, h, hle]
  · intro ms o h hpos
    simp [parse_dotnet_date, h, not_le.mpr hpos]
  · intro ms h hpos
    simp [parse_dotnet_date, h, not_le.mpr hpos]

/-- C3 counterexample: at the spec's own example input the decoder
emits the offset suffix `+05:30`, so the result is not a bare
19-character `YYYY-MM-DD HH:MM:SS` string as claimed. -/
theorem C3_counterexample :
    parse_dotnet_date "/Date(1700000000000+0530)/" = "2023-11-15 03:43:20+05:30"
  ∧ ("2023-11-15 03:43:20+05:30" : String).length ≠ 19 := by
  constructor
  · rfl
  · decide

/-- C3 witness: a non-matching string passes through, `/Date(-1)/`
decodes to the empty string, and a positive no-offset value renders in
the fixed UTC+5:30 zone. -/
theorem C3_witness :
    parse_dotnet_date "hello" = "hello"
  ∧ parse_dotnet_date "/Date(-1)/" = ""
  ∧ parse_dotnet_date "/Date(1700000000000)/" =
      formatLocalDateTime ((1700000000000 : ℤ).fdiv 1000 + 330 * 60) 330 := by
  refine ⟨?_, ?_, ?_⟩
  · exact (C3_sentinel_date "hello").1 (by rfl)
  · exact (C3_sentinel_date "/Date(-1)/").2.1 (-1) none (by rfl) (by norm_num)
  · exact (C3_sentinel_date "/Date(1700000000000)/").2.2.2 1700000000000 (by rfl)
      (by norm_num)

/-! ### C7: underlying discovery -/

theorem rowUnderlying_none (row : Row) (ks : List String)
    (h : ∀ k ∈ ks, pyGet row k = .str "" ∨ pyGet row k = .null) :
    rowUnderlying row ks = none := by
  induction ks with
  | nil => rfl
  | cons k ks ih =>
    have hk : pyGet row k = .str "" ∨ pyGet row k = .null := h k (by simp)
    have htail : rowUnderlying row ks = none :=
      ih (fun k2 hm => h k2 (by simp [hm]))
    simp [rowUnderlying, hk, htail]

theorem rowUnderlying_first (row : Row) (ks1 : List String) (k : String) (ks2 : List String)
    (q : ℚ) (hks1 : ∀ kp ∈ ks1, pyGet row kp = .str "" ∨ pyGet row kp = .null)
    (hne1 : pyGet row k ≠ .str "") (hne2 : pyGet row k ≠ .null)
    (hq : pyFloat (pyGet row k) = some q) :
    rowUnderlying row (ks1 ++ k :: ks2) = some q := by
  induction ks1 with
  | nil =>
    have hcond : ¬ (pyGet row k = .str "" ∨ pyGet row k = .null) := by
      rintro (h1 | h1)
      · exact hne1 h1
      · exact hne2 h1
    simp [rowUnderlying, hcond, hq]
  | cons kp ks1 ih =>
    have hk : pyGet row kp = .str "" ∨ pyGet row kp = .null := hks1 kp (by simp)
    have htail := ih (fun k2 hm => hks1 k2 (by simp [hm]))
    simp [rowUnderlying, hk, htail]

theorem guv_none (rows : List Row)
    (h : ∀ r ∈ rows, rowUnderlying r underlyingAliases = none) :
    get_underlying_value rows = none := by
  induction rows with
  | nil => rfl
  | cons r rows ih =>
    have htail : get_underlying_value rows = none :=
      ih (fun r2 hm => h r2 (by simp [hm]))
    simp [get_underlying_value, h r (by simp), htail]

theorem guv_append (pre rest : List Row)
    (h : ∀ r ∈ pre, rowUnderlying r underlyingAliases = none) :
    get_underlying_value (pre ++ rest) = get_underlying_value rest := by
  induction pre with
  | nil => rfl
  | cons r pre ih =>
    have htail := ih (fun r2 hm => h r2 (by simp [hm]))
    simp [get_underlying_value, h r (by simp), htail]

/-- C7: the underlying price is discovered by scanning rows in order
for the first non-empty, non-null value at an underlying alias key and
parsing it; if no row carries any such value the underlying is unknown
and the ATM window step returns the rows unchanged. -/
theorem C7_underlying_scan (rows : List Row) (w : ℕ) :
    ((∀ r ∈ rows, ∀ k ∈ underlyingAliases, pyGet r k = .str "" ∨ pyGet r k = .null) →
      get_underlying_value rows = none
      ∧ filter_atm_window rows (get_underlying_value rows) w = rows)
  ∧ (∀ pre row post, rows = pre ++ row :: post →
      (∀ r ∈ pre, ∀ k ∈ underlyingAliases, pyGet r k = .str "" ∨ pyGet r k = .null) →
      ∀ ks1 k ks2, underlyingAliases = ks1 ++ k :: ks2 →
      (∀ kp ∈ ks1, pyGet row kp = .str "" ∨ pyGet row kp = .null) →
      pyGet row k ≠ .str "" → pyGet row k ≠ .null →
      ∀ q, pyFloat (pyGet row k) = some q →
      get_underlying_value rows = some q) := by
  constructor
  · intro h
    have h0 : get_underlying_value rows = none :=
      guv_none rows (fun r hr => rowUnderlying_none r _ (h r hr))
    refine ⟨h0, ?_⟩
    rw [h0]
    simp [filter_atm_window]
  · intro pre row post hrows hpre ks1 k ks2 hsplit hks1 hne1 hne2 q hq
    subst hrows
    rw [guv_append pre (row :: post)
      (fun r hr => rowUnderlying_none r _ (hpre r hr))]
    have hrow : rowUnderlying row underlyingAliases = some q := by
      rw [hsplit]
      exact rowUnderlying_first row ks1 k ks2 q hks1 hne1 hne2 hq
    simp [get_underlying_value, hrow]

/-- C7 witness: a row set whose first row has no alias yields the
second row's `UnderlyingValue`; a row set with no alias at all yields
an unknown underlying. -/
theorem C7_witness :
    get_underlying_value [[("foo", Val.num 1)], [("UnderlyingValue", Val.num 290)]] = some 290
  ∧ get_underlying_value [[("foo", Val.num 1)]] = none := by
  constructor
  · exact (C7_underlying_scan
      [[("foo", Val.num 1)], [("UnderlyingValue", Val.num 290)]] 0).2
      [[("foo", Val.num 1)]] [("UnderlyingValue", Val.num 290)] [] rfl
      (by decide) [] "UnderlyingValue" ["UnderlineValue", "underlyingValue", "UnderlineValue"]
      rfl (by decide) (by decide) (by decide) 290 (by decide)
  · exact ((C7_underlying_scan [[("foo", Val.num 1)]] 0).1 (by decide)).1

/-! ### C6: ATM window selection -/

theorem pyAbs_eq_abs (q : ℚ) : pyAbs q = |q| := by
  unfold pyAbs
  split_ifs with h
  · rw [abs_of_neg h]
  · rw [abs_of_nonneg (not_lt.mp h)]

theorem optLt_irrefl (a : Option ℚ) : optLt a a = false := by
  cases a <;> simp [optLt]

theorem optLt_trans {a b c : Option ℚ} (h1 : optLt a b = true) (h2 : optLt b c = true) :
    optLt a c = true := by
  cases a <;> cases b <;> cases c <;> simp [optLt] at *
  exact lt_trans h1 h2

theorem optLt_of_lt_of_nlt {a b c : Option ℚ} (h1 : optLt a b = true)
    (h2 : optLt c b = false) : optLt a c = true := by
  cases a <;> cases b <;> cases c <;> simp [optLt] at *
  exact lt_of_lt_of_le h1 h2

/-- Correctness of the fold behind Python's `min(range(n), key=...)`:
the result either keeps the incoming best or names a position of `l`
whose value strictly improves on it and on everything before it, it is
minimal among `l` and the incoming best. -/
theorem argminAux_spec (l : List (Option ℚ)) : ∀ (i0 : ℕ) (b : ℕ × Option ℚ),
    ∃ rv : Option ℚ,
      ((argminAux l i0 b = b.1 ∧ rv = b.2)
        ∨ (∃ k, k < l.length ∧ argminAux l i0 b = i0 + k ∧ l.get? k = some rv
            ∧ optLt rv b.2 = true
            ∧ ∀ m dm, m < k → l.get? m = some dm → optLt rv dm = true))
      ∧ (∀ m dm, l.get? m = some dm → optLt dm rv = false)
      ∧ optLt b.2 rv = false := by
  induction l with
  | nil =>
    intro i0 b
    refine ⟨b.2, Or.inl ⟨rfl, rfl⟩, ?_, optLt_irrefl b.2⟩
    intro m dm h
    rw [List.get?_nil] at h
    cases h
  | cons v rest ih =>
    intro i0 b
    by_cases hv : optLt v b.2 = true
    · have e1 : argminAux (v :: rest) i0 b = argminAux rest (i0 + 1) (i0, v) := by
        simp [argminAux, hv]
      obtain ⟨rv, hbest, hmin, hle⟩ := ih (i0 + 1) (i0, v)
      have hlev : optLt v rv = false := hle
      refine ⟨rv, ?_, ?_, ?_⟩
      · right
        rcases hbest with ⟨heq, hveq⟩ | ⟨k, hk, heq, hget, hlt, hfirst⟩
        · refine ⟨0, by simp, ?_, ?_, ?_, ?_⟩
          · rw [e1, heq]
            simp
          · rw [List.get?_cons_zero, hveq]
          · rw [hveq]; exact hv
          · intro m dm hm
            omega
        · refine ⟨k + 1, by simp only [List.length_cons]; omega, ?_,
            by rw [List.get?_cons_succ]; exact hget, optLt_trans hlt hv, ?_⟩
          · rw [e1, heq]
            omega
          · intro m dm hm hget2
            cases m with
            | zero =>
              rw [List.get?_cons_zero] at hget2
              injection hget2 with h
              subst h
              exact hlt
            | succ m2 =>
              rw [List.get?_cons_succ] at hget2
              exact hfirst m2 dm (by omega) hget2
      · intro m dm hget2
        cases m with
        | zero =>
          rw [List.get?_cons_zero] at hget2
          injection hget2 with h
          subst h
          exact hlev
        | succ m2 =>
          rw [List.get?_cons_succ] at hget2
          exact hmin m2 dm hget2
      · by_contra hcon
        rw [Bool.not_eq_false] at hcon
        have h2 : optLt b.2 v = true := optLt_of_lt_of_nlt hcon hlev
        have h3 : optLt v v = true := optLt_trans hv h2
        rw [optLt_irrefl] at h3
        cases h3
    · have hv' : optLt v b.2 = false := by
        rw [← Bool.not_eq_true]; exact hv
      have e1 : argminAux (v :: rest) i0 b = argminAux rest (i0 + 1) b := by
        simp [argminAux, hv']
      obtain ⟨rv, hbest, hmin, hle⟩ := ih (i0 + 1) b
      refine ⟨rv, ?_, ?_, hle⟩
      · rcases hbest with ⟨heq, hveq⟩ | ⟨k, hk, heq, hget, hlt, hfirst⟩
        · exact Or.inl ⟨by rw [e1, heq], hveq⟩
        · right
          refine ⟨k + 1, by simp only [List.length_cons]; omega, ?_,
            by rw [List.get?_cons_succ]; exact hget, hlt, ?_⟩
          · rw [e1, heq]
            omega
          · intro m dm hm hget2
            cases m with
            | zero =>
              rw [List.get?_cons_zero] at hget2
              injection hget2 with h
              subst h
              exact optLt_of_lt_of_nlt hlt hv'
            | succ m2 =>
              rw [List.get?_cons_succ] at hget2
              exact hfirst m2 dm (by omega) hget2
      · intro m dm hget2
        cases m with
        | zero =>
          rw [List.get?_cons_zero] at hget2
          injection hget2 with h
          subst h
          by_contra hcon
          rw [Bool.not_eq_false] at hcon
          have h2 : optLt v b.2 = true := optLt_of_lt_of_nlt hcon hle
          rw [hv'] at h2
          cases h2
        | succ m2 =>
          rw [List.get?_cons_succ] at hget2
          exact hmin m2 dm hget2

/-- `argminIdx` returns the first index of a minimal element. -/
theorem argminIdx_spec (l : List (Option ℚ)) (hne : l ≠ []) :
    ∃ rv, l.get? (argminIdx l) = some rv
      ∧ (∀ m dm, l.get? m = some dm → optLt dm rv = false)
      ∧ (∀ m dm, m < argminIdx l → l.get? m = some dm → optLt rv dm = true) := by
  cases l with
  | nil => exact absurd rfl hne
  | cons v rest =>
    obtain ⟨rv, hbest, hmin, hle⟩ := argminAux_spec rest 1 (0, v)
    have hidx : argminIdx (v :: rest) = argminAux rest 1 (0, v) := rfl
    refine ⟨rv, ?_, ?_, ?_⟩
    · rcases hbest with ⟨heq, hveq⟩ | ⟨k, hk, heq, hget, hlt, hfirst⟩
      · rw [hidx, heq, hveq]
        rfl
      · rw [hidx, heq]
        have he2 : 1 + k = k + 1 := by omega
        rw [he2, List.get?_cons_succ]
        exact hget
    · intro m dm hget2
      cases m with
      | zero =>
        rw [List.get?_cons_zero] at hget2
        injection hget2 with h
        subst h
        exact hle
      | succ m2 =>
        rw [List.get?_cons_succ] at hget2
        exact hmin m2 dm hget2
    · intro m dm hm hget2
      rcases hbest with ⟨heq, hveq⟩ | ⟨k, hk, heq, hget, hlt, hfirst⟩
      · rw [hidx, heq] at hm
        omega
      · rw [hidx, heq] at hm
        cases m with
        | zero =>
          rw [List.get?_cons_zero] at hget2
          injection hget2 with h
          subst h
          exact hlt
        | succ m2 =>
          rw [List.get?_cons_succ] at hget2
          exact hfirst m2 dm (by omega) hget2

/-- C6: the ATM window selector passes rows through when the
underlying is unknown or the rows are empty; otherwise it keeps the
contiguous slice `[i - w, i + w]`, clipped to bounds, around the first
index `i` whose strike distance to the underlying is minimal
(non-coercible strikes counting as infinitely far). -/
theorem C6_atm_window (rows : List Row) (u : ℚ) (w : ℕ) :
    (filter_atm_window rows none w = rows)
  ∧ (rows = [] → filter_atm_window rows (some u) w = rows)
  ∧ (rows ≠ [] →
      (∃ dv, (atmDists rows u).get? (argminIdx (atmDists rows u)) = some dv
        ∧ (∀ m dm, (atmDists rows u).get? m = some dm → optLt dm dv = false)
        ∧ (∀ m dm, m < argminIdx (atmDists rows u) →
            (atmDists rows u).get? m = some dm → optLt dv dm = true))
      ∧ filter_atm_window rows (some u) w =
        (rows.drop (argminIdx (atmDists rows u) - w)).take
          (min rows.length (argminIdx (atmDists rows u) + w + 1) -
            (argminIdx (atmDists rows u) - w))) := by
  refine ⟨rfl, ?_, ?_⟩
  · intro h
    subst h
    rfl
  · intro hne
    have hd : atmDists rows u ≠ [] := by
      simp [atmDists]
      exact hne
    have he : rows.isEmpty = false := by
      simp [List.isEmpty_iff]
      exact hne
    exact ⟨argminIdx_spec _ hd, by simp [filter_atm_window, he]⟩

/-- C6 witness: sorted strikes `[100,200,300,400,500]` with underlying
290 and window 1 select the rows with strikes `[200,300,400]`. -/
theorem C6_witness :
    filter_atm_window
      [[("CE_StrikePrice", Val.num 100)], [("CE_StrikePrice", Val.num 200)],
       [("CE_StrikePrice", Val.num 300)], [("CE_StrikePrice", Val.num 400)],
       [("CE_StrikePrice", Val.num 500)]] (some 290) 1 =
      [[("CE_StrikePrice", Val.num 200)], [("CE_StrikePrice", Val.num 300)],
       [("CE_StrikePrice", Val.num 400)]] := by
  have h := ((C6_atm_window
    [[("CE_StrikePrice", Val.num 100)], [("CE_StrikePrice", Val.num 200)],
     [("CE_StrikePrice", Val.num 300)], [("CE_StrikePrice", Val.num 400)],
     [("CE_StrikePrice", Val.num 500)]] 290 1).2.2 (by decide)).2
  have hd : atmDists [[("CE_StrikePrice", Val.num 100)], [("CE_StrikePrice", Val.num 200)],
      [("CE_StrikePrice", Val.num 300)], [("CE_StrikePrice", Val.num 400)],
      [("CE_StrikePrice", Val.num 500)]] 290 =
      [some 190, some 90, some 10, some 110, some 210] := by
    norm_num [atmDists, pyGet, pyFloat, pyAbs, List.lookup]
  have hi : argminIdx [some (190 : ℚ), some 90, some 10, some 110, some 210] = 2 := by
    decide
  rw [h, hd, hi]
  decide

/-! ### C5: sorting by strike -/

theorem keyLe_refl (a : Option ℚ) : keyLe a a = true := by
  cases a <;> simp [keyLe]

theorem keyLe_trans {a b c : Option ℚ} (h1 : keyLe a b = true) (h2 : keyLe b c = true) :
    keyLe a c = true := by
  cases a <;> cases b <;> cases c <;> simp [keyLe] at *
  exact le_trans h1 h2

theorem keyLe_total (a b : Option ℚ) : keyLe a b || keyLe b a := by
  cases a <;> cases b <;> simp [keyLe]
  exact le_total _ _

theorem keyLe_none_left {b : Option ℚ} (h : keyLe none b = true) : b = none := by
  cases b with
  | none => rfl
  | some q => simp [keyLe] at h

theorem sortLe_trans : ∀ a b c : Row,
    (fun a b => keyLe (strike_key a) (strike_key b)) a b →
    (fun a b => keyLe (strike_key a) (strike_key b)) b c →
    (fun a b => keyLe (strike_key a) (strike_key b)) a c := by
  intro a b c h1 h2
  exact keyLe_trans h1 h2

theorem sortLe_total : ∀ a b : Row,
    (fun a b => keyLe (strike_key a) (strike_key b)) a b
      || (fun a b => keyLe (strike_key a) (strike_key b)) b a := by
  intro a b
  exact keyLe_total _ _

/-- C5: `sort_rows_by_strike` returns a permutation of the input,
sorted ascending by numeric strike with non-coercible strikes keyed
+infinity; it is stable (rows with any given key keep their encounter
order); and when exactly one row has a non-coercible strike that row is
placed last. -/
theorem C5_sort_by_strike (rows : List Row) :
    List.Perm (sort_rows_by_strike rows) rows
  ∧ (sort_rows_by_strike rows).Pairwise
      (fun a b => keyLe (strike_key a) (strike_key b) = true)
  ∧ (∀ k : Option ℚ,
      (sort_rows_by_strike rows).filter (fun r => decide (strike_key r = k)) =
        rows.filter (fun r => decide (strike_key r = k)))
  ∧ ((rows.filter (fun r => decide (strike_key r = none))).length = 1 →
      ∃ l r, sort_rows_by_strike rows = l ++ [r] ∧ strike_key r = none
        ∧ ∀ rp ∈ l, strike_key rp ≠ none) := by
  have hperm : List.Perm (sort_rows_by_strike rows) rows :=
    List.mergeSort_perm rows _
  have hsorted : (sort_rows_by_strike rows).Pairwise
      (fun a b => keyLe (strike_key a) (strike_key b) = true) :=
    List.sorted_mergeSort sortLe_trans sortLe_total rows
  have hstable : ∀ k : Option ℚ,
      (sort_rows_by_strike rows).filter (fun r => decide (strike_key r = k)) =
        rows.filter (fun r => decide (strike_key r = k)) := by
    intro k
    have hpw : (rows.filter (fun r => decide (strike_key r = k))).Pairwise
        (fun a b => keyLe (strike_key a) (strike_key b) = true) := by
      apply List.pairwise_of_forall_mem_list
      intro a ha b hb
      have hka : strike_key a = k := of_decide_eq_true (List.mem_filter.mp ha).2
      have hkb : strike_key b = k := of_decide_eq_true (List.mem_filter.mp hb).2
      rw [hka, hkb]
      exact keyLe_refl k
    have h1 : List.Sublist (rows.filter (fun r => decide (strike_key r = k)))
        (sort_rows_by_strike rows) :=
      List.sublist_mergeSort sortLe_trans sortLe_total hpw (List.filter_sublist rows)
    have hid : (rows.filter (fun r => decide (strike_key r = k))).filter
        (fun r => decide (strike_key r = k)) =
        rows.filter (fun r => decide (strike_key r = k)) :=
      List.filter_eq_self.mpr (fun a ha => (List.mem_filter.mp ha).2)
    have h2 : List.Sublist (rows.filter (fun r => decide (strike_key r = k)))
        ((sort_rows_by_strike rows).filter (fun r => decide (strike_key r = k))) := by
      have := h1.filter (fun r => decide (strike_key r = k))
      rwa [hid] at this
    have hlen : ((sort_rows_by_strike rows).filter
        (fun r => decide (strike_key r = k))).length =
        (rows.filter (fun r => decide (strike_key r = k))).length :=
      (hperm.filter _).length_eq
    exact (List.Sublist.eq_of_length h2 hlen.symm).symm
  refine ⟨hperm, hsorted, hstable, ?_⟩
  intro hone
  have hone2 : ((sort_rows_by_strike rows).filter
      (fun r => decide (strike_key r = none))).length = 1 := by
    rw [hstable none]
    exact hone
  obtain ⟨x, hx⟩ := List.length_eq_one.mp hone2
  obtain ⟨l1, l2, hs, hl1, hpx, hl2⟩ := List.filter_eq_cons_iff.mp hx
  have hkx : strike_key x = none := of_decide_eq_true hpx
  have hl2nil : l2 = [] := by
    cases hcase : l2 with
    | nil => rfl
    | cons y t =>
      exfalso
      have hpair := hsorted
      rw [hs, hcase] at hpair
      have hxy : keyLe (strike_key x) (strike_key y) = true :=
        List.rel_of_pairwise_cons (List.pairwise_append.mp hpair).2.1 (by simp)
      rw [hkx] at hxy
      have hky : strike_key y = none := keyLe_none_left hxy
      have : ¬ (fun r => decide (strike_key r = none)) y = true := by
        rw [hcase] at hl2
        exact List.filter_eq_nil_iff.mp hl2 y (by simp)
      exact this (decide_eq_true hky)
  refine ⟨l1, x, ?_, hkx, ?_⟩
  · rw [hs, hl2nil]
  · intro rp hrp hk
    exact hl1 rp hrp (decide_eq_true hk)

/-- C5 witness: a two-row set with one non-coercible strike (a null
strike field) sorts that row last even when it comes first. -/
theorem C5_witness :
    ∃ l r, sort_rows_by_strike
        [[("CE_StrikePrice", Val.null)], [("CE_StrikePrice", Val.num 100)]] = l ++ [r]
      ∧ strike_key r = none ∧ ∀ rp ∈ l, strike_key rp ≠ none :=
  (C5_sort_by_strike
    [[("CE_StrikePrice", Val.null)], [("CE_StrikePrice", Val.num 100)]]).2.2.2
    (by decide)

end OptionsApp
